import Mathlib

/-!
Verification of the CopyList row-store logic (src/CopyList.py).

The program keeps a two-column table of rows, each row a pair of strings
(text, description), persisted to a CSV file.  The GUI layer is out of
scope; the table is embedded as `List Row`, the Qt current-row selection
as an `Int` (Qt reports `-1` when nothing is selected), and the
encountered I/O failures (decode / encode errors) as boolean oracles.
-/

namespace CopyList

/-- A table row: the pair (text, description) shown in the two columns. -/
abbrev Row := String × String

/-- The blank row appended by `_append_row("", "")`. -/
def blankRow : Row := ("", "")

/-- A field is blank when it trims to the empty string: Python's
`s.strip() == ""` holds exactly when every character of `s` is
whitespace. -/
def str_is_blank (s : String) : Bool := s.data.all Char.isWhitespace

/-- `_row_is_empty` applied to concrete cell values (CopyList.py:174):
both fields blank after trimming whitespace. -/
def rowIsEmpty (r : Row) : Bool := str_is_blank r.1 && str_is_blank r.2

/-- `_row_is_empty_values` (CopyList.py:176-182): a raw CSV record is
blank when its first two fields (absent fields count as `""`) are blank
after trimming. -/
def row_is_empty_values (values : List String) : Bool :=
  str_is_blank (values.getD 0 "") && str_is_blank (values.getD 1 "")

/-- `_row_is_empty(row)` (CopyList.py:171-174): index-based blankness
test; out-of-range indices count as blank. -/
def row_is_empty (t : List Row) (row : Int) : Bool :=
  if row < 0 ∨ (t.length : Int) ≤ row then true
  else rowIsEmpty (t.getD row.toNat blankRow)

/-- `_get_text(row, col)` (CopyList.py:155-157): the cell text, `""` when
the item does not exist (out-of-range row). Columns other than 0 read
the description field. -/
def _get_text (t : List Row) (row : Int) (col : Nat) : String :=
  if 0 ≤ row ∧ row < (t.length : Int) then
    let r := t.getD row.toNat blankRow
    if col = 0 then r.1 else r.2
  else ""

/-- `_set_row_values(row, values)` (CopyList.py:167-169): overwrite both
cells of a row; Qt ignores writes to out-of-range rows. -/
def _set_row_values (t : List Row) (row : Int) (values : Row) : List Row :=
  if 0 ≤ row ∧ row < (t.length : Int) then t.set row.toNat values else t

/-- The removeRow loop of `ensure_trailing_empty` (CopyList.py:191-193),
expressed on the reversed table: while the last two rows are both blank,
remove the last row. -/
def collapseRev : List Row → List Row
  | a :: b :: rest =>
    if rowIsEmpty a && rowIsEmpty b then collapseRev (b :: rest)
    else a :: b :: rest
  | l => l

/-- Whether the table is non-empty and its last row is blank;
`count == 0 or not self._row_is_empty(count - 1)` (CopyList.py:195) is
the negation of this. -/
def lastIsBlank (t : List Row) : Bool :=
  match t.getLast? with
  | some r => rowIsEmpty r
  | none => false

/-- `ensure_trailing_empty` (CopyList.py:184-199): collapse multiple
trailing blank rows into one, then append a blank row if the table is
empty or ends in a non-blank row. -/
def ensure_trailing_empty (t : List Row) : List Row :=
  let t' := (collapseRev t.reverse).reverse
  if lastIsBlank t' then t' else t' ++ [blankRow]

/-- `on_value_changed` (CopyList.py:201-205), table part: nothing when
change events are suspended, otherwise re-establish the trailing blank
row (the subsequent `save_csv` does not change the table). -/
def on_value_changed (suspendEvents : Bool) (t : List Row) : List Row :=
  if suspendEvents then t else ensure_trailing_empty t

/-- `_get_selected_row` (CopyList.py:222-224) on the current-row index
Qt reports (`-1` when nothing is selected). -/
def _get_selected_row (currentRow : Int) : Int :=
  if 0 ≤ currentRow then currentRow else -1

/-- `_copy_selected_text` (CopyList.py:214-220): the clipboard content
after a selection change or cell click, given its previous content. -/
def _copy_selected_text (t : List Row) (currentRow : Int) (clipboard : String) : String :=
  let row := _get_selected_row currentRow
  if row < 0 then clipboard
  else
    let text := _get_text t row 0
    if text = "" then clipboard else text

/-- `_swap_rows(row_a, row_b)` (CopyList.py:251-261): read both rows'
cell values, then write them back crosswise. -/
def _swap_rows (t : List Row) (row_a row_b : Int) : List Row :=
  let values_a : Row := (_get_text t row_a 0, _get_text t row_a 1)
  let values_b : Row := (_get_text t row_b 0, _get_text t row_b 1)
  _set_row_values (_set_row_values t row_a values_b) row_b values_a

/-- `on_move_up` (CopyList.py:226-235): table and selection after the
up button, given the current table and selected row. -/
def on_move_up (t : List Row) (sel : Int) : List Row × Int :=
  let row := _get_selected_row sel
  if row ≤ 0 then (t, sel)
  else if row_is_empty t row then (t, sel)
  else
    let t' := _swap_rows t row (row - 1)
    (ensure_trailing_empty t', row - 1)

/-- `on_move_down` (CopyList.py:237-249): table and selection after the
down button, given the current table and selected row. -/
def on_move_down (t : List Row) (sel : Int) : List Row × Int :=
  let row := _get_selected_row sel
  let count : Int := t.length
  if row < 0 ∨ count - 1 ≤ row then (t, sel)
  else if row_is_empty t row then (t, sel)
  else if 1 ≤ count ∧ row_is_empty t (count - 1) ∧ count - 2 ≤ row then (t, sel)
  else
    let t' := _swap_rows t row (row + 1)
    (ensure_trailing_empty t', row + 1)

/-- The two encodings the program uses (CopyList.py:118). -/
inductive Encoding
  | utf8sig
  | cp932
deriving DecidableEq, Repr

/-- `_read_csv_with_fallback` (CopyList.py:116-130).  Whether each
decoding attempt raises `UnicodeDecodeError`, and what `csv.reader`
yields under each decoding, are oracles: `okUtf8` / `okCp932` say the
attempt succeeds, `rowsUtf8` / `rowsCp932` are its records, and
`rowsReplace` the records of the final `errors="replace"` re-read. -/
def _read_csv_with_fallback (okUtf8 okCp932 : Bool)
    (rowsUtf8 rowsCp932 rowsReplace : List (List String)) :
    List (List String) × Encoding :=
  if okUtf8 then (rowsUtf8, Encoding.utf8sig)
  else if okCp932 then (rowsCp932, Encoding.cp932)
  else (rowsReplace, Encoding.utf8sig)

/-- `(row_values + ["", ""])[:2]` (CopyList.py:106): pad a record to at
least two fields, then truncate to exactly two. -/
def pad_two (values : List String) : List String :=
  (values ++ ["", ""]).take 2

/-- The `while rows and self._row_is_empty_values(rows[-1]): rows.pop()`
loop (CopyList.py:102-103 and 151-152): drop trailing blank records. -/
def strip_trailing_empty_values (rows : List (List String)) : List (List String) :=
  (rows.reverse.dropWhile row_is_empty_values).reverse

/-- One loaded record as a table row (CopyList.py:105-107): pad and
truncate to two fields, then append those two cell values. -/
def record_to_row (values : List String) : Row :=
  let v := pad_two values
  (v.getD 0 "", v.getD 1 "")

/-- `load_csv` (CopyList.py:93-109): the table and remembered encoding
after a load.  `fileExists` is `os.path.exists(self.csv_path)`;
`prevEncoding` the encoding attribute before the call (initially
UTF-8-with-BOM, CopyList.py:32). -/
def load_csv (fileExists : Bool) (prevEncoding : Encoding) (okUtf8 okCp932 : Bool)
    (rowsUtf8 rowsCp932 rowsReplace : List (List String)) :
    List Row × Encoding :=
  if fileExists then
    let res := _read_csv_with_fallback okUtf8 okCp932 rowsUtf8 rowsCp932 rowsReplace
    ((strip_trailing_empty_values res.1).map record_to_row, res.2)
  else ([], prevEncoding)

/-- The startup sequence (CopyList.py:68-69): `load_csv()` followed by
`ensure_trailing_empty()`. -/
def startup_table (fileExists : Bool) (okUtf8 okCp932 : Bool)
    (rowsUtf8 rowsCp932 rowsReplace : List (List String)) : List Row :=
  ensure_trailing_empty
    (load_csv fileExists Encoding.utf8sig okUtf8 okCp932 rowsUtf8 rowsCp932 rowsReplace).1

/-- `_collect_rows_for_save` (CopyList.py:146-153): every row's two cell
texts, with trailing blank records dropped. -/
def _collect_rows_for_save (t : List Row) : List (List String) :=
  strip_trailing_empty_values (t.map fun r => [r.1, r.2])

/-- `save_csv` (CopyList.py:132-144): the records written, the
remembered encoding afterwards, and how many write attempts were made.
`firstWriteOk` is the oracle for whether `writer.writerows` raises
`UnicodeEncodeError` under the remembered encoding; the UTF-8 retry
always succeeds. -/
def save_csv (firstWriteOk : Bool) (t : List Row) (encoding : Encoding) :
    List (List String) × Encoding × Nat :=
  let rows := _collect_rows_for_save t
  if firstWriteOk then (rows, encoding, 1)
  else (rows, Encoding.utf8sig, 2)

/-- Split a character list at every occurrence of a separator. -/
def split_on_char (sep : Char) : List Char → List (List Char)
  | [] => [[]]
  | c :: rest =>
    match split_on_char sep rest with
    | [] => if c = sep then [[], []] else [[c]]
    | g :: gs => if c = sep then [] :: g :: gs else (c :: g) :: gs

/-- The record lines of a CSV text: split on newlines, where a trailing
newline does not open a further record (a model of Python's
`csv.reader` line splitting for texts without quoted fields). -/
def split_records (s : String) : List String :=
  let parts := (split_on_char (Char.ofNat 10) s.data).map String.mk
  if parts.getLast? = some "" then parts.dropLast else parts

/-- A model of Python's `csv.reader` restricted to texts without quoted
fields or carriage returns: each line is split on commas, and a fully
blank line yields an empty record. -/
def parse_csv_simple (s : String) : List (List String) :=
  (split_records s).map fun line =>
    if line = "" then [] else (split_on_char (Char.ofNat 44) line.data).map String.mk

/-- The trailing-blank invariant (spec §3): the table is non-empty, its
last row is blank, and when a second-to-last row exists it is not
blank. -/
def trailingInvariantB (t : List Row) : Bool :=
  match t.reverse with
  | [] => false
  | [a] => rowIsEmpty a
  | a :: b :: _ => rowIsEmpty a && !(rowIsEmpty b)

/-- Whether a record list ends in a blank record (used to state what a
saved file may not contain). -/
def last_record_blank (rows : List (List String)) : Bool :=
  match rows.getLast? with
  | some r => row_is_empty_values r
  | none => false

/-! ### Helper lemmas about the collapse loop -/

theorem collapseRev_cons_ne_nil (l : List Row) : ∀ x, collapseRev (x :: l) ≠ [] := by
  induction l with
  | nil => intro x h; simp [collapseRev] at h
  | cons y l' ih =>
    intro x h
    simp only [collapseRev] at h
    by_cases hxy : (rowIsEmpty x && rowIsEmpty y) = true
    · rw [if_pos hxy] at h
      exact ih y h
    · rw [if_neg hxy] at h
      exact absurd h (by simp)

theorem collapseRev_head_pair (l : List Row) :
    ∀ a b rest, collapseRev l = a :: b :: rest → (rowIsEmpty a && rowIsEmpty b) = false := by
  induction l with
  | nil => intro a b rest h; simp [collapseRev] at h
  | cons x l ih =>
    intro a b rest h
    cases l with
    | nil => simp [collapseRev] at h
    | cons y l' =>
      simp only [collapseRev] at h
      by_cases hxy : (rowIsEmpty x && rowIsEmpty y) = true
      · rw [if_pos hxy] at h
        exact ih a b rest h
      · rw [if_neg hxy] at h
        cases h
        simpa using hxy

theorem collapseRev_idem (l : List Row) : collapseRev (collapseRev l) = collapseRev l := by
  induction l with
  | nil => rfl
  | cons x l ih =>
    cases l with
    | nil => rfl
    | cons y l' =>
      by_cases hxy : (rowIsEmpty x && rowIsEmpty y) = true
      · simpa [collapseRev, hxy] using ih
      · simp [collapseRev, hxy]

theorem rowIsEmpty_blankRow : rowIsEmpty blankRow = true := by decide

theorem trailingInvariantB_ensure_rev (l : List Row) :
    trailingInvariantB (ensure_trailing_empty l.reverse) = true := by
  simp only [ensure_trailing_empty, List.reverse_reverse]
  cases hc : collapseRev l with
  | nil =>
    simp [lastIsBlank, trailingInvariantB, rowIsEmpty_blankRow]
  | cons a rest =>
    have hlast : lastIsBlank ((a :: rest).reverse) = rowIsEmpty a := by
      simp [lastIsBlank, List.getLast?_reverse]
    cases hA : rowIsEmpty a with
    | true =>
      rw [hlast, hA, if_pos rfl]
      cases rest with
      | nil => simp [trailingInvariantB, hA]
      | cons b rest' =>
        have hab := collapseRev_head_pair l a b rest' hc
        rw [hA] at hab
        simp only [Bool.true_and] at hab
        simp [trailingInvariantB, hA, hab]
    | false =>
      rw [hlast, hA]
      simp [trailingInvariantB, List.reverse_append, hA, rowIsEmpty_blankRow]

theorem trailingInvariantB_ensure (t : List Row) :
    trailingInvariantB (ensure_trailing_empty t) = true := by
  have h := trailingInvariantB_ensure_rev t.reverse
  rwa [List.reverse_reverse] at h

theorem ensure_fixed_rev (l : List Row) (h : trailingInvariantB l.reverse = true) :
    ensure_trailing_empty l.reverse = l.reverse := by
  cases l with
  | nil => simp [trailingInvariantB] at h
  | cons a rest =>
    cases rest with
    | nil =>
      simp only [trailingInvariantB, List.reverse_reverse] at h
      simp [ensure_trailing_empty, List.reverse_reverse, collapseRev, lastIsBlank,
        List.getLast?_reverse, h]
    | cons b rest' =>
      simp only [trailingInvariantB, List.reverse_reverse, Bool.and_eq_true,
        Bool.not_eq_true'] at h
      obtain ⟨ha, hb⟩ := h
      simp [ensure_trailing_empty, List.reverse_reverse, collapseRev, hb, lastIsBlank,
        List.getLast?_reverse, ha]

theorem ensure_of_invariant (t : List Row) (h : trailingInvariantB t = true) :
    ensure_trailing_empty t = t := by
  have h' : trailingInvariantB (t.reverse).reverse = true := by
    rwa [List.reverse_reverse]
  have := ensure_fixed_rev t.reverse h'
  rwa [List.reverse_reverse] at this

/-! ### Helper lemmas about record stripping, padding and indexing -/

theorem head?_dropWhile_false {α : Type} (p : α → Bool) (l : List α) :
    ∀ a, (l.dropWhile p).head? = some a → p a = false := by
  induction l with
  | nil => intro a h; simp [List.dropWhile] at h
  | cons x l ih =>
    intro a h
    rw [List.dropWhile_cons] at h
    by_cases hx : p x = true
    · rw [if_pos hx] at h
      exact ih a h
    · rw [if_neg hx] at h
      simp only [List.head?_cons, Option.some.injEq] at h
      subst h
      simpa using hx

theorem strip_isPrefix (rows : List (List String)) :
    strip_trailing_empty_values rows <+: rows := by
  have h := List.dropWhile_suffix (l := rows.reverse) row_is_empty_values
  have h2 := List.reverse_prefix.mpr h
  rwa [List.reverse_reverse] at h2

theorem strip_decomp (rows : List (List String)) :
    rows = strip_trailing_empty_values rows ++
      (rows.reverse.takeWhile row_is_empty_values).reverse := by
  unfold strip_trailing_empty_values
  rw [← List.reverse_append, List.takeWhile_append_dropWhile, List.reverse_reverse]

theorem strip_getLast?_not_blank (rows : List (List String)) :
    ∀ v, (strip_trailing_empty_values rows).getLast? = some v →
      row_is_empty_values v = false := by
  intro v hv
  unfold strip_trailing_empty_values at hv
  rw [List.getLast?_reverse] at hv
  exact head?_dropWhile_false row_is_empty_values rows.reverse v hv

theorem pad_two_getD (v : List String) :
    (pad_two v).getD 0 "" = v.getD 0 "" ∧ (pad_two v).getD 1 "" = v.getD 1 "" := by
  match v with
  | [] => exact ⟨rfl, rfl⟩
  | [a] => exact ⟨rfl, rfl⟩
  | a :: b :: l => exact ⟨rfl, rfl⟩

theorem rowIsEmpty_record_to_row (v : List String) :
    rowIsEmpty (record_to_row v) = row_is_empty_values v := by
  match v with
  | [] => rfl
  | [a] => rfl
  | a :: b :: l => rfl

theorem lastIsBlank_strip_map (rows : List (List String)) :
    lastIsBlank ((strip_trailing_empty_values rows).map record_to_row) = false := by
  unfold lastIsBlank
  rw [List.getLast?_map]
  cases hh : (strip_trailing_empty_values rows).getLast? with
  | none => rfl
  | some v =>
    have hv := strip_getLast?_not_blank rows v hh
    simpa [rowIsEmpty_record_to_row] using hv

theorem row_is_empty_last (t : List Row) (h : t ≠ []) :
    row_is_empty t ((t.length : Int) - 1) = lastIsBlank t := by
  have hlen : 0 < t.length := List.length_pos.mpr h
  have hne : ¬((t.length : Int) - 1 < 0 ∨ (t.length : Int) ≤ (t.length : Int) - 1) := by
    omega
  have htn : ((t.length : Int) - 1).toNat = t.length - 1 := by omega
  have hlt : t.length - 1 < t.length := by omega
  rw [row_is_empty, if_neg hne, htn, lastIsBlank, List.getLast?_eq_getElem?,
    List.getD_eq_getElem?_getD, List.getElem?_eq_getElem hlt]
  rfl

theorem swap_rows_eq_set (t : List Row) (a : Nat) (h : a + 1 < t.length) :
    _swap_rows t (a : Int) ((a : Int) + 1) =
      (t.set a (t.getD (a + 1) blankRow)).set (a + 1) (t.getD a blankRow) := by
  have h1 : ((a : Int)).toNat = a := by omega
  have h2 : ((a : Int) + 1).toNat = a + 1 := by omega
  have d0 : (0 : Int) ≤ (a : Int) := by omega
  have d1 : (a : Int) < (t.length : Int) := by omega
  have e0 : (0 : Int) ≤ (a : Int) + 1 := by omega
  have e1 : (a : Int) + 1 < (t.length : Int) := by omega
  simp only [_swap_rows, _get_text, _set_row_values, List.length_set,
    if_pos (And.intro d0 d1), if_pos (And.intro e0 e1), h1, h2,
    if_pos (rfl : (0 : Nat) = 0)]
  rw [if_neg (by omega : ¬(1 : Nat) = 0), if_neg (by omega : ¬(1 : Nat) = 0)]
  simp only [if_true, Prod.mk.eta]

theorem getD_set_set_swap (t : List Row) (a : Nat) (h : a + 1 < t.length)
    (va vb : Row) :
    ((t.set a vb).set (a + 1) va).getD a blankRow = vb ∧
    ((t.set a vb).set (a + 1) va).getD (a + 1) blankRow = va := by
  constructor
  · rw [List.getD_eq_getElem?_getD, List.getElem?_set_ne (by omega : a + 1 ≠ a),
      List.getElem?_set_self (by omega : a < t.length)]
    rfl
  · rw [List.getD_eq_getElem?_getD,
      List.getElem?_set_self (by simpa using h)]
    rfl

/-! ### The claims -/

/-- C1: after every edit operation — a value change with events enabled,
a move up, a move down, or the load performed at startup — the table
satisfies the trailing-blank invariant: it is non-empty, its last row is
blank, and no second blank row precedes it (the moves preserve the
invariant, the other operations establish it outright). -/
theorem edits_preserve_trailing_invariant :
    (∀ t : List Row, trailingInvariantB (on_value_changed false t) = true) ∧
    (∀ (t : List Row) (sel : Int), trailingInvariantB t = true →
      trailingInvariantB (on_move_up t sel).1 = true) ∧
    (∀ (t : List Row) (sel : Int), trailingInvariantB t = true →
      trailingInvariantB (on_move_down t sel).1 = true) ∧
    (∀ (fileExists okUtf8 okCp932 : Bool) (rowsUtf8 rowsCp932 rowsReplace : List (List String)),
      trailingInvariantB
        (startup_table fileExists okUtf8 okCp932 rowsUtf8 rowsCp932 rowsReplace) = true) := by
  refine ⟨?_, ?_, ?_, ?_⟩
  · intro t
    simpa [on_value_changed] using trailingInvariantB_ensure t
  · intro t sel h
    simp only [on_move_up]
    split_ifs with h1 h2
    · exact h
    · exact h
    · exact trailingInvariantB_ensure _
  · intro t sel h
    simp only [on_move_down]
    split_ifs with h1 h2 h3
    · exact h
    · exact h
    · exact h
    · exact trailingInvariantB_ensure _
  · intro fe okU okC rU rC rR
    exact trailingInvariantB_ensure _

theorem edits_preserve_trailing_invariant_witness :
    trailingInvariantB (on_move_up [("a", ""), ("", "")] 1).1 = true ∧
    trailingInvariantB (on_move_down [("a", ""), ("", "")] 0).1 = true :=
  ⟨edits_preserve_trailing_invariant.2.1 [("a", ""), ("", "")] 1 (by decide),
   edits_preserve_trailing_invariant.2.2.1 [("a", ""), ("", "")] 0 (by decide)⟩

/-- C2: `ensure_trailing_empty` is idempotent — applying it twice yields
the same table as applying it once. -/
theorem ensure_trailing_empty_idempotent (t : List Row) :
    ensure_trailing_empty (ensure_trailing_empty t) = ensure_trailing_empty t :=
  ensure_of_invariant _ (trailingInvariantB_ensure t)

/-- C3: on a successful `move_down` (selected row non-blank, not at a
forbidden boundary) the moved row's and the next row's contents are
exchanged in place (same length, contents swapped) and the selection
moves to the row below; in particular, on `[("a","x"),("b","y"),("","")]`
with row 0 selected the result is `[("b","y"),("a","x"),("","")]` with
row 1 selected. -/
theorem move_down_success_swaps :
    (∀ (t : List Row) (sel : Int),
      0 ≤ sel → sel < (t.length : Int) - 1 →
      row_is_empty t sel = false →
      ¬(1 ≤ (t.length : Int) ∧ row_is_empty t ((t.length : Int) - 1) = true ∧
          (t.length : Int) - 2 ≤ sel) →
      on_move_down t sel =
        (ensure_trailing_empty (_swap_rows t sel (sel + 1)), sel + 1) ∧
      (_swap_rows t sel (sel + 1)).length = t.length ∧
      (_swap_rows t sel (sel + 1)).getD sel.toNat blankRow =
        t.getD (sel.toNat + 1) blankRow ∧
      (_swap_rows t sel (sel + 1)).getD (sel.toNat + 1) blankRow =
        t.getD sel.toNat blankRow) ∧
    on_move_down [("a", "x"), ("b", "y"), ("", "")] 0 =
      ([("b", "y"), ("a", "x"), ("", "")], 1) := by
  constructor
  · intro t sel h0 h1 h2 h3
    have hrow : _get_selected_row sel = sel := if_pos h0
    have hn : sel.toNat + 1 < t.length := by omega
    have hsel : ((sel.toNat : Nat) : Int) = sel := Int.toNat_of_nonneg h0
    have hswap := swap_rows_eq_set t sel.toNat hn
    rw [hsel] at hswap
    refine ⟨?_, ?_, ?_, ?_⟩
    · simp only [on_move_down, hrow]
      rw [if_neg (by omega : ¬(sel < 0 ∨ (t.length : Int) - 1 ≤ sel)),
        if_neg (by simp [h2]), if_neg h3]
    · rw [hswap]
      simp
    · rw [hswap]
      exact (getD_set_set_swap t sel.toNat hn _ _).1
    · rw [hswap]
      exact (getD_set_set_swap t sel.toNat hn _ _).2
  · decide

theorem move_down_success_swaps_witness :
    on_move_down [("a", "x"), ("b", "y"), ("", "")] 0 =
      (ensure_trailing_empty
        (_swap_rows [("a", "x"), ("b", "y"), ("", "")] 0 (0 + 1)), 0 + 1) :=
  (move_down_success_swaps.1 [("a", "x"), ("b", "y"), ("", "")] 0
    (by decide) (by decide) (by decide) (by decide)).1

/-- C4: `move_up` leaves the table and the selection unchanged when the
selected row is out of bounds, is the first row, or is itself blank;
`move_down` does so when the selected row is out of bounds, is the last
row, is itself blank, or — when the last row is blank — its index is at
least `rowCount - 2`. -/
theorem move_noop_conditions :
    (∀ (t : List Row) (sel : Int),
      (sel < 0 ∨ sel = 0 ∨ (t.length : Int) ≤ sel ∨ row_is_empty t sel = true) →
      on_move_up t sel = (t, sel)) ∧
    (∀ (t : List Row) (sel : Int),
      (sel < 0 ∨ (t.length : Int) ≤ sel ∨ sel = (t.length : Int) - 1 ∨
        row_is_empty t sel = true ∨
        (lastIsBlank t = true ∧ (t.length : Int) - 2 ≤ sel)) →
      on_move_down t sel = (t, sel)) := by
  constructor
  · intro t sel h
    by_cases hs : 0 ≤ sel
    · simp only [on_move_up, _get_selected_row, if_pos hs]
      split_ifs with h1 h2
      · rfl
      · rfl
      · exfalso
        rcases h with h | h | h | h
        · omega
        · omega
        · exact h2 (by rw [row_is_empty, if_pos (Or.inr h)])
        · exact h2 h
    · simp only [on_move_up, _get_selected_row, if_neg hs]
      rw [if_pos (by decide : (-1 : Int) ≤ 0)]
  · intro t sel h
    by_cases hs : 0 ≤ sel
    · simp only [on_move_down, _get_selected_row, if_pos hs]
      split_ifs with h1 h2 h3
      · rfl
      · rfl
      · rfl
      · exfalso
        push_neg at h1
        obtain ⟨h1a, h1b⟩ := h1
        rcases h with h | h | h | h | h
        · omega
        · omega
        · omega
        · exact h2 h
        · have hne : t ≠ [] := by
            intro he
            rw [he] at h1b
            simp at h1b
            omega
          exact h3 ⟨by omega, by rw [row_is_empty_last t hne]; exact h.1, h.2⟩
    · simp only [on_move_down, _get_selected_row, if_neg hs]
      rw [if_pos (Or.inl (by decide : (-1 : Int) < 0))]

theorem move_noop_conditions_witness :
    on_move_up [("a", "x"), ("", "")] 0 = ([("a", "x"), ("", "")], 0) ∧
    on_move_down [("a", "x"), ("", "")] 0 = ([("a", "x"), ("", "")], 0) ∧
    on_move_up [("a", "x"), ("", "")] 5 = ([("a", "x"), ("", "")], 5) ∧
    on_move_down [("a", "x"), ("", "")] (-1) = ([("a", "x"), ("", "")], -1) :=
  ⟨move_noop_conditions.1 [("a", "x"), ("", "")] 0 (Or.inr (Or.inl rfl)),
   move_noop_conditions.2 [("a", "x"), ("", "")] 0
     (Or.inr (Or.inr (Or.inr (Or.inr ⟨by decide, by decide⟩)))),
   move_noop_conditions.1 [("a", "x"), ("", "")] 5 (Or.inr (Or.inr (Or.inl (by decide)))),
   move_noop_conditions.2 [("a", "x"), ("", "")] (-1) (Or.inl (by decide))⟩

/-- C5: on a selection change or cell click, when a row is selected and
its first field is non-empty the clipboard becomes that first field;
when nothing is selected, or the selected row's first field is the empty
string, the clipboard keeps its previous content. -/
theorem clipboard_copy_on_select :
    (∀ (t : List Row) (sel : Int) (clip : String),
      0 ≤ sel → sel < (t.length : Int) →
      (t.getD sel.toNat blankRow).1 ≠ "" →
      _copy_selected_text t sel clip = (t.getD sel.toNat blankRow).1) ∧
    (∀ (t : List Row) (sel : Int) (clip : String), sel < 0 →
      _copy_selected_text t sel clip = clip) ∧
    (∀ (t : List Row) (sel : Int) (clip : String),
      (t.getD sel.toNat blankRow).1 = "" →
      _copy_selected_text t sel clip = clip) := by
  refine ⟨?_, ?_, ?_⟩
  · intro t sel clip h0 h1 hne
    simp only [_copy_selected_text, _get_selected_row, if_pos h0]
    rw [if_neg (by omega : ¬sel < 0), _get_text, if_pos (And.intro h0 h1),
      if_pos rfl, if_neg hne]
  · intro t sel clip h
    simp only [_copy_selected_text, _get_selected_row]
    rw [if_neg (by omega : ¬(0 : Int) ≤ sel), if_pos (by decide : (-1 : Int) < 0)]
  · intro t sel clip h
    by_cases hs : 0 ≤ sel
    · simp only [_copy_selected_text, _get_selected_row, if_pos hs]
      rw [if_neg (by omega : ¬sel < 0)]
      by_cases hin : sel < (t.length : Int)
      · rw [_get_text, if_pos (And.intro hs hin), if_pos rfl, if_pos h]
      · rw [_get_text, if_neg (by omega : ¬(0 ≤ sel ∧ sel < (t.length : Int))),
          if_pos rfl]
    · simp only [_copy_selected_text, _get_selected_row, if_neg hs]
      rw [if_pos (by decide : (-1 : Int) < 0)]

theorem clipboard_copy_on_select_witness :
    _copy_selected_text [("hello", "d"), ("", "")] 0 "old" = "hello" ∧
    _copy_selected_text [("hello", "d"), ("", "")] (-1) "old" = "old" ∧
    _copy_selected_text [("", "d"), ("", "")] 0 "old" = "old" :=
  ⟨(clipboard_copy_on_select.1 [("hello", "d"), ("", "")] 0 "old"
      (by decide) (by decide) (by decide)).trans (by decide),
   clipboard_copy_on_select.2.1 [("hello", "d"), ("", "")] (-1) "old" (by decide),
   clipboard_copy_on_select.2.2 [("", "d"), ("", "")] 0 "old" (by decide)⟩

/-- C6: `load_csv` starts with an empty table when the CSV file is
absent; otherwise it populates the table with the parsed records with
trailing all-blank records stripped (the loaded table never ends in a
blank row); in particular, the startup load of a file containing
`a,x\nb,y\n,\n,\n` yields `[("a","x"),("b","y"),("","")]`. -/
theorem load_csv_strips_trailing_blanks :
    (∀ (pe : Encoding) (okU okC : Bool) (rU rC rR : List (List String)),
      (load_csv false pe okU okC rU rC rR).1 = []) ∧
    (∀ (fe : Bool) (pe : Encoding) (okU okC : Bool) (rU rC rR : List (List String)),
      lastIsBlank (load_csv fe pe okU okC rU rC rR).1 = false) ∧
    startup_table true true false (parse_csv_simple "a,x\nb,y\n,\n,\n") [] [] =
      [("a", "x"), ("b", "y"), ("", "")] := by
  refine ⟨fun pe okU okC rU rC rR => rfl, ?_, by decide⟩
  intro fe pe okU okC rU rC rR
  cases fe with
  | false => rfl
  | true =>
    show lastIsBlank
        ((strip_trailing_empty_values
          (_read_csv_with_fallback okU okC rU rC rR).1).map record_to_row) = false
    exact lastIsBlank_strip_map _

/-- C7: a save writes exactly the table's rows up through the last
non-blank row — the written records are a prefix of the table's rows,
every omitted row is blank, and the written file never ends in a blank
record — under both the first write attempt and the encoding-fallback
retry. -/
theorem save_omits_trailing_blanks (t : List Row) :
    _collect_rows_for_save t <+: (t.map fun r => [r.1, r.2]) ∧
    ((t.map fun r => [r.1, r.2]).drop
        (_collect_rows_for_save t).length).all row_is_empty_values = true ∧
    last_record_blank (_collect_rows_for_save t) = false ∧
    (∀ (b : Bool) (e : Encoding), (save_csv b t e).1 = _collect_rows_for_save t) := by
  have hcol : _collect_rows_for_save t =
      strip_trailing_empty_values (t.map fun r => [r.1, r.2]) := rfl
  refine ⟨strip_isPrefix _, ?_, ?_, ?_⟩
  · have hdrop : (t.map fun r => [r.1, r.2]).drop
        (_collect_rows_for_save t).length
        = ((t.map fun r => [r.1, r.2]).reverse.takeWhile row_is_empty_values).reverse := by
      rw [hcol]
      nth_rewrite 2 [strip_decomp (t.map fun r => [r.1, r.2])]
      rw [List.drop_left]
    rw [hdrop, List.all_eq_true]
    intro x hx
    rw [List.mem_reverse] at hx
    exact List.mem_takeWhile_imp hx
  · unfold last_record_blank
    cases hh : (_collect_rows_for_save t).getLast? with
    | none => rfl
    | some v => exact strip_getLast?_not_blank _ v hh
  · intro b e
    cases b <;> rfl

/-- C8: on load, decoding candidates are tried in the order
UTF-8-with-BOM then cp932, the first that decodes wins and its encoding
is remembered for subsequent saves; when both fail the file is re-read
with invalid-byte substitution and UTF-8-with-BOM is remembered, so a
decode failure still yields records and is never surfaced as an
error. -/
theorem encoding_fallback_order :
    (∀ (okC : Bool) (rU rC rR : List (List String)),
      _read_csv_with_fallback true okC rU rC rR = (rU, Encoding.utf8sig)) ∧
    (∀ rU rC rR : List (List String),
      _read_csv_with_fallback false true rU rC rR = (rC, Encoding.cp932)) ∧
    (∀ rU rC rR : List (List String),
      _read_csv_with_fallback false false rU rC rR = (rR, Encoding.utf8sig)) ∧
    (∀ (pe : Encoding) (okU okC : Bool) (rU rC rR : List (List String)),
      (load_csv true pe okU okC rU rC rR).2 =
        (_read_csv_with_fallback okU okC rU rC rR).2) :=
  ⟨fun _ _ _ _ => rfl, fun _ _ _ => rfl, fun _ _ _ => rfl,
   fun _ _ _ _ _ _ => rfl⟩

/-- C9: when the first write attempt fails to encode, `save_csv`
switches the remembered encoding to UTF-8-with-BOM and retries exactly
once (two attempts in total), writing the same rows as the first
attempt; a successful first attempt writes once and keeps the
encoding. -/
theorem save_encode_retry (t : List Row) (e : Encoding) :
    save_csv true t e = (_collect_rows_for_save t, e, 1) ∧
    save_csv false t e = (_collect_rows_for_save t, Encoding.utf8sig, 2) ∧
    (save_csv false t e).1 = (save_csv true t e).1 :=
  ⟨rfl, rfl, rfl⟩

/-- C10: every row handled has exactly two string fields — a loaded
record is padded with empty strings when it has fewer than two fields
and truncated to its first two fields when it has more, and every
record collected for saving has exactly two fields. -/
theorem rows_have_two_fields :
    (∀ values : List String, (pad_two values).length = 2) ∧
    (pad_two [] = ["", ""]) ∧
    (∀ a : String, pad_two [a] = [a, ""]) ∧
    (∀ (a b : String) (l : List String), pad_two (a :: b :: l) = [a, b]) ∧
    (∀ t : List Row,
      ((_collect_rows_for_save t).all fun rec => rec.length == 2) = true) := by
  refine ⟨?_, rfl, fun a => rfl, fun a b l => rfl, ?_⟩
  · intro v
    match v with
    | [] => rfl
    | [a] => rfl
    | a :: b :: l => rfl
  · intro t
    rw [List.all_eq_true]
    intro x hx
    have hx' : x ∈ t.map fun r => [r.1, r.2] :=
      (strip_isPrefix (t.map fun r => [r.1, r.2])).subset hx
    obtain ⟨r, _, hxr⟩ := List.mem_map.mp hx'
    rw [← hxr]
    rfl

end CopyList
